import Mathlib

/- Verification development for the share-note plugin: a shallow embedding of
the reconciliation engine (NoteManagement.getNotes), the upload coordination
entry points (SharePlugin.uploadNote, SharePlugin.copyShareLink), the one-time
user identifier minting in SharePlugin.onload, and a spec-modelled Note.share. -/

/-- RemoteItem, named NoteItem as in the source interface: a shared note as
returned by the backend, with an optional vault path filled in only by
reconciliation. -/
structure NoteItem where
  id : String
  updated : String
  path : Option String
deriving DecidableEq, Repr

/-- One local markdown file as reconciliation sees it: its vault path and the
value of the frontmatter field `<yamlField>_link`, when that field is present.
A file with no metadata, no frontmatter, or no such field is modelled with
shareLink none. -/
structure VaultFile where
  path : String
  shareLink : Option String
deriving DecidableEq, Repr

/-- JavaScript truthiness of an optional string value, as used by the guards
`if (shareLink)` and `if (!this.settings.uid)`: an absent value and the empty
string are falsy, every other string is truthy. -/
def truthy : Option String → Bool
  | none => false
  | some s => !(s == "")

/-- Identifier a vault file resolves to, mirroring the guarded sequence in
getNotes: `if (shareLink) { const parsed = parseExistingShareUrl(shareLink);
if (parsed) { ... x.id === parsed.filename ... } }`. The parse function is a
parameter because api.ts is not under src; the result is the parsed filename
(none models a falsy parse result). -/
def resolvedId (parseShareUrl : String → Option String) (f : VaultFile) : Option String :=
  match f.shareLink with
  | none => none
  | some s => if s == "" then none else parseShareUrl s

/-- Effect of `const row = sharedNotes.find(x => x.id === parsed.filename);
if (row) { row.path = file.path }`: the first item whose id matches gets its
path set in place; every other item is untouched. -/
def setPathFirst : List NoteItem → String → String → List NoteItem
  | [], _, _ => []
  | x :: xs, i, p =>
    if x.id = i then { x with path := some p } :: xs
    else x :: setPathFirst xs i p

/-- One iteration of the `forEach` body of getNotes for a single vault file. -/
def processFile (parseShareUrl : String → Option String)
    (notes : List NoteItem) (f : VaultFile) : List NoteItem :=
  match resolvedId parseShareUrl f with
  | none => notes
  | some i => setPathFirst notes i f.path

/-- The whole `forEach` loop of getNotes: fold the per-file update over the
vault files in iteration order. -/
def annotate (parseShareUrl : String → Option String)
    (notes : List NoteItem) (vault : List VaultFile) : List NoteItem :=
  vault.foldl (processFile parseShareUrl) notes

/-- Observable outcome of one getNotes call: the returned list, the vault
post-state (getNotes performs no vault or metadata writes, so it always equals
the input vault), and the console.log calls made. -/
structure GetNotesRun where
  notes : List NoteItem
  vault : List VaultFile
  consoleLog : List String
deriving DecidableEq, Repr

/-- NoteManagement.getNotes. The remote fetch result is the fetched argument:
ok with the backend list, or error with the thrown message. On error the catch
block logs and the initial empty sharedNotes array is returned; the function
itself never throws, which the total return type reflects. -/
def getNotes (parseShareUrl : String → Option String)
    (fetched : Except String (List NoteItem)) (vault : List VaultFile) : GetNotesRun :=
  match fetched with
  | Except.error e => { notes := [], vault := vault, consoleLog := [e] }
  | Except.ok sharedNotes =>
    { notes := annotate parseShareUrl sharedNotes vault
      vault := vault
      consoleLog := [] }

/-- Path of the last vault file in iteration order that resolves to the given
id, when one exists. This is a specification-side helper used to state theorems
about the fold in getNotes; it is not itself part of the source. -/
def lastPathFor (parseShareUrl : String → Option String) :
    List VaultFile → String → Option String
  | [], _ => none
  | f :: fs, i =>
    match lastPathFor parseShareUrl fs i with
    | some p => some p
    | none => if resolvedId parseShareUrl f = some i then some f.path else none

/-- Error object thrown by Note.share, carrying the message inspected by the
catch block of uploadNote. -/
structure ShareError where
  message : String
deriving DecidableEq, Repr

/-- Observable outcome of one uploadNote call: the error-styled status messages
it created, whether the transient status indicator was hidden before returning,
and the error re-raised to the caller, if any. -/
structure UploadNoteRun where
  errorNotices : List String
  statusHidden : Bool
  raised : Option ShareError
deriving DecidableEq, Repr

/-- SharePlugin.uploadNote. The outcome of `await note.share()` is the
shareOutcome argument. The two flags select `note.forceUpload()` and
`note.forceClipboard()`, which only configure the Note object and therefore
only influence shareOutcome; they do not change the try/catch structure. The
catch block posts a generic error notice exactly when the message equals the
sentinel and contains no rethrow, and `note.status.hide()` runs after the
try/catch on every path. -/
def uploadNote (shareOutcome : Except ShareError Unit)
    (forceUpload forceClipboard : Bool) : UploadNoteRun :=
  match shareOutcome with
  | Except.ok _ => { errorNotices := [], statusHidden := true, raised := none }
  | Except.error e =>
    { errorNotices :=
        if e.message = "Unknown error"
        then ["There was an error uploading the note, please try again."]
        else []
      statusHidden := true
      raised := none }

/-- Observable outcome of one copyShareLink call: the text written to the
clipboard (if any), the status messages created, and the arguments
(forceUpload, forceClipboard) of the uploadNote call it made, if it made one. -/
structure CopyShareLinkRun where
  clipboard : Option String
  notices : List String
  uploadNoteCall : Option (Bool × Bool)
deriving DecidableEq, Repr

/-- SharePlugin.copyShareLink. The frontLink argument is the value of
the frontmatter field named yamlField plus the _link suffix for the given file.
On a truthy value the link is written to the clipboard with a notice; otherwise
the note is shared first via `this.uploadNote(false, true)`. -/
def copyShareLink (frontLink : Option String) : CopyShareLinkRun :=
  if truthy frontLink then
    { clipboard := frontLink
      notices := ["Shared link copied to clipboard"]
      uploadNoteCall := none }
  else
    { clipboard := none, notices := [], uploadNoteCall := some (false, true) }

/-- Observable outcome of the uid block of SharePlugin.onload: the resulting
settings.uid, whether a fresh uid was minted, and whether saveSettings ran. -/
structure OnloadUidRun where
  uid : Option String
  minted : Bool
  saved : Bool
deriving DecidableEq, Repr

/-- Uid block of SharePlugin.onload: `if (!this.settings.uid) { this.settings.uid
= await hash(...); await this.saveSettings() }`. The loadedUid argument is
settings.uid right after loadSettings; freshHash stands for the hash of the
concatenation of Date.now() and Math.random(), abstracted because crypto.ts
is not under src. -/
def onloadUid (loadedUid : Option String) (freshHash : String) : OnloadUidRun :=
  if truthy loadedUid then { uid := loadedUid, minted := false, saved := false }
  else { uid := some freshHash, minted := true, saved := true }

/-- ShareRecord persisted in a document, as in spec section 3. -/
structure ShareRecord where
  id : String
  link : String
  updated : Nat
deriving DecidableEq, Repr

/-- Local document as the Upload Coordinator sees it: path, last content
modification time, and its ShareRecord when one is stored and parseable. -/
structure NoteDoc where
  path : String
  mtime : Nat
  record : Option ShareRecord
deriving DecidableEq, Repr

/-- Observable outcome of one share call: document post-state, number of
network upload calls issued, the resulting link, the clipboard write, and the
error raised, if any. -/
structure ShareRun where
  doc : NoteDoc
  uploads : Nat
  link : Option String
  clipboard : Option String
  error : Option String
deriving DecidableEq, Repr

/-- Modelled from the spec: the content-unchanged judgement of spec section 4.3
step 2, left by the spec to a content-addressing comparison against `updated`;
note.ts is not under src. A document counts as unchanged when it was last
modified no later than the last successful sync. -/
def contentUnchanged (doc : NoteDoc) (rec : ShareRecord) : Bool :=
  decide (doc.mtime ≤ rec.updated)

/-- Modelled from the spec: the upload branch of Note.share (spec section 4.3
steps 3 to 5); note.ts is not under src. The api argument is the remote create
or update response: the new id on success, or an error message. On success the
ShareRecord is written with the returned id, the computed link and the current
time; on failure nothing is written and the error is surfaced. -/
def shareUpload (baseUrl : String) (api : Except String String) (now : Nat)
    (copySetting forceClipboard : Bool) (doc : NoteDoc) : ShareRun :=
  match api with
  | Except.error msg =>
    { doc := doc, uploads := 1, link := none, clipboard := none, error := some msg }
  | Except.ok i =>
    { doc := { doc with record := some { id := i, link := baseUrl ++ "/" ++ i, updated := now } }
      uploads := 1
      link := some (baseUrl ++ "/" ++ i)
      clipboard :=
        if forceClipboard || copySetting then some (baseUrl ++ "/" ++ i) else none
      error := none }

/-- Modelled from the spec: Note.share (spec sections 4.3 and 8); note.ts is
not under src. If a record exists, forceUpload is false and the content is
judged unchanged, the network upload is skipped and the stored link is reused
for the clipboard step; otherwise the upload branch runs. -/
def share (baseUrl : String) (api : Except String String) (now : Nat)
    (copySetting forceUpload forceClipboard : Bool) (doc : NoteDoc) : ShareRun :=
  match doc.record with
  | some rec =>
    if !forceUpload && contentUnchanged doc rec then
      { doc := doc
        uploads := 0
        link := some rec.link
        clipboard := if forceClipboard || copySetting then some rec.link else none
        error := none }
    else shareUpload baseUrl api now copySetting forceClipboard doc
  | none => shareUpload baseUrl api now copySetting forceClipboard doc

/-- Predicate used to state lemmas about the fold in getNotes: keeps the vault
files that do not resolve to the given id. -/
def notResolvesTo (parseShareUrl : String → Option String) (j : String)
    (f : VaultFile) : Bool :=
  !(decide (resolvedId parseShareUrl f = some j))

theorem notResolvesTo_iff (p : String → Option String) (j : String) (f : VaultFile) :
    notResolvesTo p j f = true ↔ resolvedId p f ≠ some j := by
  simp [notResolvesTo]

theorem annotate_vault_nil (p : String → Option String) (notes : List NoteItem) :
    annotate p notes [] = notes := rfl

theorem annotate_vault_cons (p : String → Option String) (notes : List NoteItem)
    (f : VaultFile) (fs : List VaultFile) :
    annotate p notes (f :: fs) = annotate p (processFile p notes f) fs := rfl

theorem processFile_nil (p : String → Option String) (f : VaultFile) :
    processFile p [] f = [] := by
  unfold processFile
  cases resolvedId p f <;> simp [setPathFirst]

theorem annotate_notes_nil (p : String → Option String) :
    ∀ vault : List VaultFile, annotate p [] vault = [] := by
  intro vault
  induction vault with
  | nil => rfl
  | cons f fs ih => rw [annotate_vault_cons, processFile_nil]; exact ih

theorem setPathFirst_map_id (notes : List NoteItem) (i q : String) :
    (setPathFirst notes i q).map NoteItem.id = notes.map NoteItem.id := by
  induction notes with
  | nil => rfl
  | cons x xs ih => unfold setPathFirst; split <;> simp [ih]

theorem setPathFirst_map_updated (notes : List NoteItem) (i q : String) :
    (setPathFirst notes i q).map NoteItem.updated = notes.map NoteItem.updated := by
  induction notes with
  | nil => rfl
  | cons x xs ih => unfold setPathFirst; split <;> simp [ih]

theorem processFile_map_id (p : String → Option String) (notes : List NoteItem)
    (f : VaultFile) :
    (processFile p notes f).map NoteItem.id = notes.map NoteItem.id := by
  unfold processFile
  cases resolvedId p f <;> simp [setPathFirst_map_id]

theorem processFile_map_updated (p : String → Option String) (notes : List NoteItem)
    (f : VaultFile) :
    (processFile p notes f).map NoteItem.updated = notes.map NoteItem.updated := by
  unfold processFile
  cases resolvedId p f <;> simp [setPathFirst_map_updated]

theorem annotate_map_id (p : String → Option String) :
    ∀ (vault : List VaultFile) (notes : List NoteItem),
      (annotate p notes vault).map NoteItem.id = notes.map NoteItem.id := by
  intro vault
  induction vault with
  | nil => intro notes; rfl
  | cons f fs ih =>
    intro notes
    rw [annotate_vault_cons, ih, processFile_map_id]

theorem annotate_map_updated (p : String → Option String) :
    ∀ (vault : List VaultFile) (notes : List NoteItem),
      (annotate p notes vault).map NoteItem.updated = notes.map NoteItem.updated := by
  intro vault
  induction vault with
  | nil => intro notes; rfl
  | cons f fs ih =>
    intro notes
    rw [annotate_vault_cons, ih, processFile_map_updated]

theorem annotate_length (p : String → Option String) (vault : List VaultFile)
    (notes : List NoteItem) :
    (annotate p notes vault).length = notes.length := by
  have h := annotate_map_id p vault notes
  have h1 := List.length_map (annotate p notes vault) NoteItem.id
  have h2 := List.length_map notes NoteItem.id
  rw [h] at h1
  exact h1.symm.trans h2

theorem lastPathFor_eq_none (p : String → Option String) (i : String) :
    ∀ fs : List VaultFile,
      lastPathFor p fs i = none ↔ ∀ f ∈ fs, resolvedId p f ≠ some i := by
  intro fs
  induction fs with
  | nil => simp [lastPathFor]
  | cons f fs ih =>
    simp only [lastPathFor, List.mem_cons]
    cases h : lastPathFor p fs i with
    | some q =>
      have ihn : ¬ ∀ g ∈ fs, resolvedId p g ≠ some i := by
        intro hall
        rw [ih.mpr hall] at h
        exact Option.noConfusion h
      simp only [h]
      apply iff_of_false (by simp)
      intro hall
      exact ihn (fun g hg => hall g (Or.inr hg))
    | none =>
      have ihy : ∀ g ∈ fs, resolvedId p g ≠ some i := ih.mp h
      simp only [h]
      by_cases hr : resolvedId p f = some i
      · apply iff_of_false (by simp [hr])
        intro hall
        exact hall f (Or.inl rfl) hr
      · apply iff_of_true (by simp [hr])
        intro g hg
        rcases hg with hgf | hg
        · rw [hgf]; exact hr
        · exact ihy g hg

theorem lastPathFor_filter_ne (p : String → Option String) (i j : String)
    (hij : i ≠ j) :
    ∀ fs : List VaultFile,
      lastPathFor p (fs.filter (notResolvesTo p j)) i = lastPathFor p fs i := by
  intro fs
  induction fs with
  | nil => rfl
  | cons f fs ih =>
    cases hp : notResolvesTo p j f with
    | true =>
      rw [List.filter_cons_of_pos hp]
      simp only [lastPathFor, ih]
    | false =>
      have hres : resolvedId p f = some j := by
        have := (notResolvesTo_iff p j f)
        by_cases hc : resolvedId p f = some j
        · exact hc
        · rw [(this.mpr hc)] at hp; cases hp
      rw [List.filter_cons_of_neg (by rw [hp]; exact Bool.false_ne_true)]
      rw [ih]
      simp only [lastPathFor]
      cases lastPathFor p fs i with
      | some q => rfl
      | none =>
        simp only [hres]
        have : ¬ ((some j : Option String) = some i) := by
          intro hcon
          exact hij (Option.some.inj hcon).symm
        simp [this]

theorem lastPathFor_filter_self (p : String → Option String) (j : String)
    (fs : List VaultFile) :
    lastPathFor p (fs.filter (notResolvesTo p j)) j = none := by
  rw [lastPathFor_eq_none]
  intro f hf
  have := List.mem_filter.mp hf
  exact (notResolvesTo_iff p j f).mp this.2

theorem lastPathFor_append (p : String → Option String) (i : String) :
    ∀ l₁ l₂ : List VaultFile,
      lastPathFor p (l₁ ++ l₂) i =
        match lastPathFor p l₂ i with
        | some q => some q
        | none => lastPathFor p l₁ i := by
  intro l₁ l₂
  induction l₁ with
  | nil =>
    cases h : lastPathFor p l₂ i <;> simp [lastPathFor, h]
  | cons f l₁ ih =>
    show lastPathFor p (f :: (l₁ ++ l₂)) i = _
    cases h2 : lastPathFor p l₂ i <;> cases h1 : lastPathFor p l₁ i <;>
      simp [lastPathFor, ih, h1, h2]

theorem lastPathFor_last (p : String → Option String) (i : String)
    (l₁ : List VaultFile) (f : VaultFile) (l₂ : List VaultFile)
    (hf : resolvedId p f = some i)
    (h₂ : ∀ g ∈ l₂, resolvedId p g ≠ some i) :
    lastPathFor p (l₁ ++ f :: l₂) i = some f.path := by
  have hnone : lastPathFor p l₂ i = none := (lastPathFor_eq_none p i l₂).mpr h₂
  rw [lastPathFor_append]
  simp [lastPathFor, hnone, hf]

theorem lastPathFor_unique (p : String → Option String) (i : String) :
    ∀ fs : List VaultFile, (fs.filterMap (resolvedId p)).Nodup →
      ∀ f ∈ fs, resolvedId p f = some i → lastPathFor p fs i = some f.path := by
  intro fs
  induction fs with
  | nil => intro _ f hf; cases hf
  | cons g fs ih =>
    intro hnd f hf hres
    rcases List.mem_cons.mp hf with hfg | hfm
    · subst hfg
      have hnone : lastPathFor p fs i = none := by
        rw [lastPathFor_eq_none]
        intro f2 hf2 hres2
        have hmem : i ∈ fs.filterMap (resolvedId p) :=
          List.mem_filterMap.mpr ⟨f2, hf2, hres2⟩
        rw [List.filterMap_cons, hres] at hnd
        exact (List.nodup_cons.mp hnd).1 hmem
      simp [lastPathFor, hnone, hres]
    · have hnd2 : (fs.filterMap (resolvedId p)).Nodup := by
        rw [List.filterMap_cons] at hnd
        cases hg : resolvedId p g with
        | none => simp only [hg] at hnd; exact hnd
        | some j => simp only [hg] at hnd; exact (List.nodup_cons.mp hnd).2
      have := ih hnd2 f hfm hres
      simp [lastPathFor, this]

theorem annotate_cons (p : String → Option String) :
    ∀ (vault : List VaultFile) (x : NoteItem) (xs : List NoteItem),
      annotate p (x :: xs) vault =
        (match lastPathFor p vault x.id with
         | some q => { x with path := some q }
         | none => x) :: annotate p xs (vault.filter (notResolvesTo p x.id)) := by
  intro vault
  induction vault with
  | nil => intro x xs; simp [annotate_vault_nil, lastPathFor, List.filter_nil]
  | cons f fs ih =>
    intro x xs
    rw [annotate_vault_cons]
    cases hres : resolvedId p f with
    | none =>
      have hpf : processFile p (x :: xs) f = x :: xs := by
        simp [processFile, hres]
      have hpf2 : processFile p xs f = xs := by
        simp [processFile, hres]
      have hkeep : notResolvesTo p x.id f = true := by
        rw [notResolvesTo_iff, hres]
        exact fun hcon => Option.noConfusion hcon
      rw [hpf, ih x xs, List.filter_cons_of_pos hkeep, annotate_vault_cons, hpf2]
      have hlast : lastPathFor p (f :: fs) x.id = lastPathFor p fs x.id := by
        cases h : lastPathFor p fs x.id <;> simp [lastPathFor, h, hres]
      rw [hlast]
    | some j =>
      by_cases hxj : x.id = j
      · subst hxj
        have hpf : processFile p (x :: xs) f = { x with path := some f.path } :: xs := by
          simp [processFile, hres, setPathFirst]
        rw [hpf, ih { x with path := some f.path } xs]
        have hdrop : notResolvesTo p x.id f = false := by
          simp [notResolvesTo, hres]
        rw [List.filter_cons_of_neg (by rw [hdrop]; exact Bool.false_ne_true)]
        have hlast : lastPathFor p (f :: fs) x.id =
            match lastPathFor p fs x.id with
            | some q => some q
            | none => some f.path := by
          cases h : lastPathFor p fs x.id <;> simp [lastPathFor, h, hres]
        rw [hlast]
        cases h : lastPathFor p fs x.id <;> simp [h]
      · have hpf : processFile p (x :: xs) f = x :: setPathFirst xs j f.path := by
          simp [processFile, hres, setPathFirst, hxj]
        rw [hpf, ih x (setPathFirst xs j f.path)]
        have hkeep : notResolvesTo p x.id f = true := by
          rw [notResolvesTo_iff, hres]
          intro hcon
          exact hxj (Option.some.inj hcon).symm
        rw [List.filter_cons_of_pos hkeep, annotate_vault_cons]
        have hpf2 : processFile p xs f = setPathFirst xs j f.path := by
          simp [processFile, hres]
        rw [hpf2]
        have hlast : lastPathFor p (f :: fs) x.id = lastPathFor p fs x.id := by
          cases h : lastPathFor p fs x.id <;>
            simp [lastPathFor, h, hres, Ne.symm hxj]
        rw [hlast]

theorem annotate_getElem? (p : String → Option String) (notes : List NoteItem)
    (vault : List VaultFile) (k : Nat) :
    (annotate p notes vault)[k]? = (notes[k]?).map (fun x =>
      if x.id ∈ (notes.take k).map NoteItem.id then x
      else
        match lastPathFor p vault x.id with
        | some q => { x with path := some q }
        | none => x) := by
  induction notes generalizing vault k with
  | nil => simp [annotate_notes_nil]
  | cons x xs ih =>
    rw [annotate_cons]
    cases k with
    | zero =>
      simp only [List.getElem?_cons_zero, Option.map_some']
      rw [if_neg (by simp)]
    | succ k =>
      conv_lhs => rw [List.getElem?_cons_succ]
      conv_rhs => rw [List.getElem?_cons_succ]
      rw [ih (vault.filter (notResolvesTo p x.id)) k]
      cases hxk : xs[k]? with
      | none => rfl
      | some y =>
        simp only [Option.map_some']
        have hc : y.id ∈ ((x :: xs).take (k + 1)).map NoteItem.id ↔
            y.id = x.id ∨ y.id ∈ (xs.take k).map NoteItem.id := by
          rw [List.take_succ_cons, List.map_cons, List.mem_cons]
        by_cases hyx : y.id = x.id
        · rw [if_pos (hc.mpr (Or.inl hyx))]
          by_cases hmem : y.id ∈ (xs.take k).map NoteItem.id
          · rw [if_pos hmem]
          · rw [if_neg hmem, hyx, lastPathFor_filter_self]
        · by_cases hmem : y.id ∈ (xs.take k).map NoteItem.id
          · rw [if_pos hmem, if_pos (hc.mpr (Or.inr hmem))]
          · rw [if_neg hmem, if_neg (fun h => (hc.mp h).elim hyx hmem)]
            rw [lastPathFor_filter_ne p y.id x.id hyx]

theorem nodup_getElem_not_mem_take {α : Type} (l : List α) (hl : l.Nodup)
    (k : Nat) (hk : k < l.length) : l.get ⟨k, hk⟩ ∉ l.take k := by
  intro hmem
  obtain ⟨j, hj, hjv⟩ := List.mem_iff_getElem.mp hmem
  have hjk : j < k := Nat.lt_of_lt_of_le hj (List.length_take_le k l)
  have hjl : j < l.length := Nat.lt_trans hjk hk
  have hjeq : (l.take k).get ⟨j, hj⟩ = l.get ⟨j, hjl⟩ := by
    have h := List.getElem?_take_of_lt (l := l) (n := k) (m := j) hjk
    rw [List.getElem?_eq_getElem hj, List.getElem?_eq_getElem hjl] at h
    exact Option.some.inj h
  have hjv2 : l.get ⟨j, hjl⟩ = l.get ⟨k, hk⟩ := hjeq.symm.trans hjv
  exact Nat.ne_of_lt hjk ((hl.getElem_inj_iff).mp hjv2)

/-- C3: when the remote fetch in getNotes raises, the operation returns an
empty list, logs the error locally and touches nothing else; the embedding is
a total function, so no exception reaches the caller. -/
theorem getNotes_fetch_failure (p : String → Option String)
    (vault : List VaultFile) (e : String) :
    getNotes p (Except.error e) vault
      = { notes := [], vault := vault, consoleLog := [e] } := rfl

/-- C5: getNotes never mutates local document metadata (the vault post-state
equals the input vault on every fetch outcome) and never changes the identity
fields of the remote items: the returned list has the fetched ids and updated
stamps unchanged, pointwise and in order; only the transient path field of
the returned view is filled in. -/
theorem getNotes_no_mutation (p : String → Option String)
    (fetched : Except String (List NoteItem)) (vault : List VaultFile)
    (notes : List NoteItem) :
    (getNotes p fetched vault).vault = vault
    ∧ (getNotes p (Except.ok notes) vault).notes.map NoteItem.id
        = notes.map NoteItem.id
    ∧ (getNotes p (Except.ok notes) vault).notes.map NoteItem.updated
        = notes.map NoteItem.updated := by
  refine ⟨?_, ?_, ?_⟩
  · cases fetched <;> rfl
  · exact annotate_map_id p vault notes
  · exact annotate_map_updated p vault notes

/-- C7: uploadNote hides the transient status indicator on every exit path,
for every outcome of note.share and every flag combination. -/
theorem uploadNote_status_always_hidden (o : Except ShareError Unit)
    (fu fc : Bool) : (uploadNote o fu fc).statusHidden = true := by
  cases o <;> rfl

/-- C1 counterexample: a share failure whose message is not the sentinel is
not re-raised by uploadNote; the catch block swallows it silently, so nothing
propagates to the caller and no notice is shown. -/
theorem uploadNote_nonsentinel_swallowed_cex :
    (uploadNote (Except.error { message := "Network failure" }) false false).raised
        = none
    ∧ (uploadNote (Except.error { message := "Network failure" }) false
        false).errorNotices = []
    ∧ "Network failure" ≠ "Unknown error" := by
  refine ⟨rfl, ?_, by decide⟩
  decide

/-- C1 as amended: on a failing share, uploadNote emits the generic error
notice exactly when the message equals the sentinel, and in every case the
error is swallowed: uploadNote returns normally, re-raising nothing, with the
status indicator hidden. -/
theorem uploadNote_error_handling (e : ShareError) (fu fc : Bool) :
    (uploadNote (Except.error e) fu fc).raised = none
    ∧ (uploadNote (Except.error e) fu fc).errorNotices
        = (if e.message = "Unknown error"
           then ["There was an error uploading the note, please try again."]
           else [])
    ∧ (uploadNote (Except.error e) fu fc).statusHidden = true :=
  ⟨rfl, rfl, rfl⟩

/-- C8: on load, a uid is minted exactly when the loaded settings carry no
truthy uid, in which case the fresh hash value is stored and persisted via
saveSettings; a settings object that already carries a uid is left unchanged
and nothing is saved. -/
theorem onload_uid_minted_once (u : Option String) (h : String) :
    (truthy u = false →
      onloadUid u h = { uid := some h, minted := true, saved := true })
    ∧ (truthy u = true →
      onloadUid u h = { uid := u, minted := false, saved := false }) := by
  constructor
  · intro hu; simp [onloadUid, hu]
  · intro hu; simp [onloadUid, hu]

theorem onload_uid_minted_once_witness :
    onloadUid none "h1" = { uid := some "h1", minted := true, saved := true }
    ∧ onloadUid (some "u0") "h1"
        = { uid := some "u0", minted := false, saved := false } :=
  ⟨(onload_uid_minted_once none "h1").1 rfl,
   (onload_uid_minted_once (some "u0") "h1").2 (by decide)⟩

/-- C9 counterexample: a file whose frontmatter carries the share-link field
with the empty string as its value does contain a value under the field, yet
copyShareLink does not copy that value: it takes the falsy branch and invokes
uploadNote instead. -/
theorem copyShareLink_empty_value_cex :
    (copyShareLink (some "")).clipboard ≠ some ""
    ∧ (copyShareLink (some "")).uploadNoteCall = some (false, true) := by
  constructor
  · decide
  · decide

/-- C9 as amended: when the frontmatter link field holds a non-empty value,
copyShareLink writes exactly that value to the clipboard, posts the copied
notice and performs no upload; when the field is absent or holds a falsy
value, it invokes uploadNote with forceUpload false and forceClipboard true
and writes nothing itself. -/
theorem copyShareLink_behavior (fm : Option String) :
    (∀ s : String, fm = some s → s ≠ "" →
      copyShareLink fm = { clipboard := some s
                           notices := ["Shared link copied to clipboard"]
                           uploadNoteCall := none })
    ∧ (truthy fm = false →
      copyShareLink fm
        = { clipboard := none, notices := [], uploadNoteCall := some (false, true) }) := by
  constructor
  · intro s hfm hs
    subst hfm
    have ht : truthy (some s) = true := by
      simp [truthy, hs]
    simp [copyShareLink, ht]
  · intro hf
    simp [copyShareLink, hf]

theorem copyShareLink_behavior_witness :
    copyShareLink (some "L1")
        = { clipboard := some "L1"
            notices := ["Shared link copied to clipboard"]
            uploadNoteCall := none }
    ∧ copyShareLink none
        = { clipboard := none, notices := [], uploadNoteCall := some (false, true) } :=
  ⟨(copyShareLink_behavior (some "L1")).1 "L1" rfl (by decide),
   (copyShareLink_behavior none).2 rfl⟩

/-- C6: a document whose stored link does not parse (the parse function
returns none on it) is treated by getNotes exactly like a document with no
stored link at all: the returned list and the log are unchanged when the
garbage link is replaced by an absent one, so the document is skipped without
error and annotates no remote item. -/
theorem getNotes_malformed_link_skipped (p : String → Option String)
    (fetched : Except String (List NoteItem)) (v₁ v₂ : List VaultFile)
    (q s : String) (hs : p s = none) :
    (getNotes p fetched (v₁ ++ { path := q, shareLink := some s } :: v₂)).notes
      = (getNotes p fetched (v₁ ++ { path := q, shareLink := none } :: v₂)).notes
    ∧ (getNotes p fetched (v₁ ++ { path := q, shareLink := some s } :: v₂)).consoleLog
      = (getNotes p fetched (v₁ ++ { path := q, shareLink := none } :: v₂)).consoleLog := by
  cases fetched with
  | error e => exact ⟨rfl, rfl⟩
  | ok notes =>
    refine ⟨?_, rfl⟩
    show annotate p notes _ = annotate p notes _
    have h1 : ∀ ns : List NoteItem,
        processFile p ns { path := q, shareLink := some s } = ns := by
      intro ns
      have hres : resolvedId p { path := q, shareLink := some s } = none := by
        simp [resolvedId, hs]
      simp [processFile, hres]
    have h2 : ∀ ns : List NoteItem,
        processFile p ns { path := q, shareLink := none } = ns := fun ns => rfl
    unfold annotate
    rw [List.foldl_append, List.foldl_append, List.foldl_cons, List.foldl_cons,
      h1, h2]

theorem getNotes_malformed_link_skipped_witness :
    (getNotes (fun _ => none)
        (Except.ok [{ id := "a", updated := "t", path := none }])
        ([] ++ { path := "D", shareLink := some "garbage" } :: [])).notes
      = (getNotes (fun _ => none)
        (Except.ok [{ id := "a", updated := "t", path := none }])
        ([] ++ { path := "D", shareLink := none } :: [])).notes :=
  (getNotes_malformed_link_skipped (fun _ => none)
    (Except.ok [{ id := "a", updated := "t", path := none }])
    [] [] "D" "garbage" rfl).1

/-- C2: on a well-formed state (remote ids pairwise distinct, local documents
resolving to pairwise distinct ids as the data-model invariants require, and
remote items fetched without paths), getNotes returns exactly the fetched
items in backend order, and an item carries a document path exactly when that
document resolves to its id; items with no matching document keep path
absent. -/
theorem getNotes_reconciliation_correct (p : String → Option String)
    (notes : List NoteItem) (vault : List VaultFile)
    (hids : (notes.map NoteItem.id).Nodup)
    (hdocs : (vault.filterMap (resolvedId p)).Nodup)
    (hpaths : ∀ x ∈ notes, x.path = none) :
    (getNotes p (Except.ok notes) vault).notes.map NoteItem.id
        = notes.map NoteItem.id
    ∧ (getNotes p (Except.ok notes) vault).notes.map NoteItem.updated
        = notes.map NoteItem.updated
    ∧ ∀ (k : Nat) (hk : k < notes.length)
        (hk2 : k < (getNotes p (Except.ok notes) vault).notes.length),
        (((getNotes p (Except.ok notes) vault).notes.get ⟨k, hk2⟩).path = none
          ↔ ∀ f ∈ vault, resolvedId p f ≠ some ((notes.get ⟨k, hk⟩).id))
        ∧ ∀ f ∈ vault, resolvedId p f = some ((notes.get ⟨k, hk⟩).id) →
            ((getNotes p (Except.ok notes) vault).notes.get ⟨k, hk2⟩).path
              = some f.path := by
  refine ⟨annotate_map_id p vault notes, annotate_map_updated p vault notes, ?_⟩
  intro k hk hk2
  have hk2' : k < (annotate p notes vault).length := hk2
  have hchar := annotate_getElem? p notes vault k
  have hg1 : (annotate p notes vault)[k]?
      = some ((annotate p notes vault).get ⟨k, hk2'⟩) :=
    List.getElem?_eq_getElem hk2'
  have hg2 : notes[k]? = some (notes.get ⟨k, hk⟩) :=
    List.getElem?_eq_getElem hk
  rw [hg1, hg2] at hchar
  simp only [Option.map_some', Option.some.injEq] at hchar
  have hnotmem : (notes.get ⟨k, hk⟩).id ∉ (notes.take k).map NoteItem.id := by
    rw [List.map_take]
    have hk3 : k < (notes.map NoteItem.id).length := by
      rw [List.length_map]; exact hk
    have hx : (notes.get ⟨k, hk⟩).id = (notes.map NoteItem.id).get ⟨k, hk3⟩ :=
      (List.getElem_map NoteItem.id).symm
    rw [hx]
    exact nodup_getElem_not_mem_take _ hids k hk3
  rw [if_neg hnotmem] at hchar
  have hpk : (notes.get ⟨k, hk⟩).path = none := hpaths _ (List.getElem_mem hk)
  constructor
  · show ((annotate p notes vault).get ⟨k, hk2'⟩).path = none ↔ _
    rw [hchar]
    cases hl : lastPathFor p vault ((notes.get ⟨k, hk⟩).id) with
    | none =>
      apply iff_of_true
      · exact hpk
      · exact (lastPathFor_eq_none p _ vault).mp hl
    | some q =>
      apply iff_of_false
      · intro hcon
        exact Option.noConfusion hcon
      · intro hall
        rw [(lastPathFor_eq_none p _ vault).mpr hall] at hl
        exact Option.noConfusion hl
  · intro f hf hres
    have hu := lastPathFor_unique p ((notes.get ⟨k, hk⟩).id) vault hdocs f hf hres
    show ((annotate p notes vault).get ⟨k, hk2'⟩).path = some f.path
    rw [hchar, hu]

theorem getNotes_reconciliation_correct_witness :
    (getNotes (fun s => if s = "x" then some "b" else none)
        (Except.ok [{ id := "a", updated := "1", path := none },
                    { id := "b", updated := "2", path := none },
                    { id := "c", updated := "3", path := none }])
        [{ path := "D", shareLink := some "x" }]).notes.map NoteItem.id
      = ["a", "b", "c"]
    ∧ ((getNotes (fun s => if s = "x" then some "b" else none)
        (Except.ok [{ id := "a", updated := "1", path := none },
                    { id := "b", updated := "2", path := none },
                    { id := "c", updated := "3", path := none }])
        [{ path := "D", shareLink := some "x" }]).notes.get ⟨1, by decide⟩).path
      = some "D" := by
  have h := getNotes_reconciliation_correct
    (fun s => if s = "x" then some "b" else none)
    [{ id := "a", updated := "1", path := none },
     { id := "b", updated := "2", path := none },
     { id := "c", updated := "3", path := none }]
    [{ path := "D", shareLink := some "x" }]
    (by decide) (by decide) (by decide)
  refine ⟨h.1.trans (by decide), ?_⟩
  exact (h.2.2 1 (by decide) (by decide)).2
    { path := "D", shareLink := some "x" } (by decide) (by decide)

/-- C10: duplicate handling of getNotes. First, an item that shares its id
with an earlier item in the fetched list is never annotated: it is returned
exactly as fetched, because the lookup always selects the first match.
Second, for a first-occurrence item, when the vault splits so that a file
resolving to its id has no later resolver for the same id, that last file
wins: the item ends up carrying its path. -/
theorem getNotes_duplicate_semantics (p : String → Option String)
    (notes : List NoteItem) (vault : List VaultFile) :
    (∀ (k : Nat) (hk : k < notes.length)
        (hk2 : k < (getNotes p (Except.ok notes) vault).notes.length)
        (j : Nat) (hj : j < k),
        (notes.get ⟨j, Nat.lt_trans hj hk⟩).id = (notes.get ⟨k, hk⟩).id →
        (getNotes p (Except.ok notes) vault).notes.get ⟨k, hk2⟩
          = notes.get ⟨k, hk⟩)
    ∧ (∀ (k : Nat) (hk : k < notes.length)
        (hk2 : k < (getNotes p (Except.ok notes) vault).notes.length)
        (v₁ : List VaultFile) (f : VaultFile) (v₂ : List VaultFile),
        vault = v₁ ++ f :: v₂ →
        resolvedId p f = some ((notes.get ⟨k, hk⟩).id) →
        (∀ g ∈ v₂, resolvedId p g ≠ some ((notes.get ⟨k, hk⟩).id)) →
        (notes.get ⟨k, hk⟩).id ∉ (notes.take k).map NoteItem.id →
        ((getNotes p (Except.ok notes) vault).notes.get ⟨k, hk2⟩).path
          = some f.path) := by
  constructor
  · intro k hk hk2 j hj hid
    have hk2' : k < (annotate p notes vault).length := hk2
    have hchar := annotate_getElem? p notes vault k
    have hg1 : (annotate p notes vault)[k]?
        = some ((annotate p notes vault).get ⟨k, hk2'⟩) :=
      List.getElem?_eq_getElem hk2'
    have hg2 : notes[k]? = some (notes.get ⟨k, hk⟩) :=
      List.getElem?_eq_getElem hk
    rw [hg1, hg2] at hchar
    simp only [Option.map_some', Option.some.injEq] at hchar
    have hmem : (notes.get ⟨k, hk⟩).id ∈ (notes.take k).map NoteItem.id := by
      apply List.mem_map.mpr
      refine ⟨notes.get ⟨j, Nat.lt_trans hj hk⟩, ?_, hid⟩
      apply List.mem_iff_getElem?.mpr
      refine ⟨j, ?_⟩
      have h1 : (notes.take k)[j]? = notes[j]? := List.getElem?_take_of_lt hj
      have h2 : notes[j]? = some (notes.get ⟨j, Nat.lt_trans hj hk⟩) :=
        List.getElem?_eq_getElem (Nat.lt_trans hj hk)
      exact h1.trans h2
    rw [if_pos hmem] at hchar
    exact hchar
  · intro k hk hk2 v₁ f v₂ hsplit hres hafter hnm
    have hk2' : k < (annotate p notes vault).length := hk2
    have hchar := annotate_getElem? p notes vault k
    have hg1 : (annotate p notes vault)[k]?
        = some ((annotate p notes vault).get ⟨k, hk2'⟩) :=
      List.getElem?_eq_getElem hk2'
    have hg2 : notes[k]? = some (notes.get ⟨k, hk⟩) :=
      List.getElem?_eq_getElem hk
    rw [hg1, hg2] at hchar
    simp only [Option.map_some', Option.some.injEq] at hchar
    rw [if_neg hnm] at hchar
    have hlast : lastPathFor p vault ((notes.get ⟨k, hk⟩).id) = some f.path := by
      rw [hsplit]
      exact lastPathFor_last p _ v₁ f v₂ hres hafter
    rw [hlast] at hchar
    show ((annotate p notes vault).get ⟨k, hk2'⟩).path = some f.path
    rw [hchar]

theorem getNotes_duplicate_semantics_witness :
    ((getNotes (fun _ => some "b")
        (Except.ok [{ id := "b", updated := "1", path := none },
                    { id := "b", updated := "2", path := none }])
        [{ path := "D1", shareLink := some "x" },
         { path := "D2", shareLink := some "y" }]).notes.get ⟨0, by decide⟩).path
      = some "D2"
    ∧ (getNotes (fun _ => some "b")
        (Except.ok [{ id := "b", updated := "1", path := none },
                    { id := "b", updated := "2", path := none }])
        [{ path := "D1", shareLink := some "x" },
         { path := "D2", shareLink := some "y" }]).notes.get ⟨1, by decide⟩
      = { id := "b", updated := "2", path := none } := by
  have h := getNotes_duplicate_semantics (fun _ => some "b")
    [{ id := "b", updated := "1", path := none },
     { id := "b", updated := "2", path := none }]
    [{ path := "D1", shareLink := some "x" },
     { path := "D2", shareLink := some "y" }]
  constructor
  · exact h.2 0 (by decide) (by decide)
      [{ path := "D1", shareLink := some "x" }]
      { path := "D2", shareLink := some "y" } [] rfl (by decide)
      (by simp) (by decide)
  · exact (h.1 1 (by decide) (by decide) 0 (by decide) (by decide)).trans (by decide)

/-- C4: with forceUpload false on both calls and the document unmodified
since before the first call, two successive share calls issue at most one
network upload in total; the second call performs zero network calls, yields
the same stored link as the first, and leaves the document state untouched.
The first call is assumed to receive a successful remote response; the second
call never reaches the network, whatever response it would get. -/
theorem share_idempotent (baseUrl i : String) (now now2 : Nat)
    (cs fc cs2 fc2 : Bool) (api2 : Except String String) (doc : NoteDoc)
    (hm : doc.mtime ≤ now) :
    (share baseUrl api2 now2 cs2 false fc2
        (share baseUrl (Except.ok i) now cs false fc doc).doc).uploads = 0
    ∧ (share baseUrl api2 now2 cs2 false fc2
        (share baseUrl (Except.ok i) now cs false fc doc).doc).link
      = (share baseUrl (Except.ok i) now cs false fc doc).link
    ∧ (share baseUrl (Except.ok i) now cs false fc doc).uploads
      + (share baseUrl api2 now2 cs2 false fc2
          (share baseUrl (Except.ok i) now cs false fc doc).doc).uploads ≤ 1
    ∧ (share baseUrl api2 now2 cs2 false fc2
        (share baseUrl (Except.ok i) now cs false fc doc).doc).doc
      = (share baseUrl (Except.ok i) now cs false fc doc).doc := by
  cases hrec : doc.record with
  | none =>
    simp [share, shareUpload, hrec, contentUnchanged, hm]
  | some rec =>
    by_cases hc : doc.mtime ≤ rec.updated
    · simp [share, shareUpload, hrec, contentUnchanged, hc]
    · simp [share, shareUpload, hrec, contentUnchanged, hc, hm]

theorem share_idempotent_witness :
    (share "h" (Except.error "boom") 9 false false false
        (share "h" (Except.ok "n1") 5 false false false
          { path := "D", mtime := 3, record := none }).doc).uploads = 0
    ∧ (share "h" (Except.error "boom") 9 false false false
        (share "h" (Except.ok "n1") 5 false false false
          { path := "D", mtime := 3, record := none }).doc).link
      = (share "h" (Except.ok "n1") 5 false false false
          { path := "D", mtime := 3, record := none }).link := by
  have h := share_idempotent "h" "n1" 5 9 false false false false
    (Except.error "boom") { path := "D", mtime := 3, record := none }
    (by decide)
  exact ⟨h.1, h.2.1⟩
